import Mathlib

/-!
Verification of the message rendering and delivery pipeline of the
Mudahprompt-collect repository (`exchange_info_ai_agent.py`,
`utils/telegram_sender.py`, `utils/json_writer.py`).

Python strings are embedded as `List Char`; Python `str.strip`/`lstrip`/
`rstrip`, slicing, and `str.rfind` are embedded directly.  The Gemini
rewrite service is an arbitrary oracle (`Option (List Char)`, `none` for an
unavailable or failing call, matching `_call_gemini` returning `None`).
The Telegram transport is a function from call index to a success flag,
matching each `requests.post(...).ok` result.

One Python detail is embedded with a deliberate simplification: the
break-point acceptance tests `idx > limit * 0.4` and `idx > max_chars * 0.4`
compare an integer to an IEEE double.  Here they are embedded as the exact
rational comparison `limit * 2 < idx * 5`.  The double rounding of `0.4`
can shift the threshold by strictly less than one unit and only when the
exact value `2*limit/5` is itself an integer; none of the theorems below
depends on the exact threshold value, only on the accepted index being
positive, which holds for either reading.
-/

/-- Whitespace predicate used by Python `str.strip` / regex `\s`
(ASCII whitespace: space, tab, newline, carriage return, vertical tab,
form feed). -/
def pyWS (c : Char) : Bool :=
  c == ' ' || c == '\t' || c == '\n' || c == '\r' ||
  c == Char.ofNat 11 || c == Char.ofNat 12

/-- Python `str.lstrip()`. -/
def pyLstrip (l : List Char) : List Char := l.dropWhile pyWS

/-- Python `str.rstrip()`. -/
def pyRstrip (l : List Char) : List Char := (l.reverse.dropWhile pyWS).reverse

/-- Python `str.strip()`. -/
def pyStrip (l : List Char) : List Char := pyLstrip (pyRstrip l)

/-- `leadsWith sub hay` holds when `sub` is an initial segment of `hay`
(Python `hay.startswith(sub)`). -/
def leadsWith : List Char → List Char → Bool
  | [], _ => true
  | _ :: _, [] => false
  | a :: s, b :: h => a == b && leadsWith s h

/-- Python `hay.rfind(sub)`: the greatest index `i` such that `sub` occurs in
`hay` starting at `i`, as an `Option` (Python returns `-1` for `none`). -/
def pyRfind (hay sub : List Char) : Option Nat :=
  (List.range (hay.length + 1)).reverse.find? (fun i => leadsWith sub (hay.drop i))

/-- The acceptance test `idx > limit * 0.4` of `telegram_sender.py`
(see the header comment on the floating-point rounding of `0.4`). -/
def acceptsBreak (idx limit : Nat) : Bool := limit * 2 < idx * 5

/-- The separator `"\n\n"`. -/
def nl2 : List Char := '\n' :: '\n' :: []

/-- The separator `"\n"`. -/
def nl1 : List Char := '\n' :: []

/-- The sentence ender `". "`. -/
def dotSp : List Char := '.' :: ' ' :: []

/-- The sentence ender `"! "`. -/
def bangSp : List Char := '!' :: ' ' :: []

/-- The sentence ender `"? "`. -/
def questSp : List Char := '?' :: ' ' :: []

/-- The separator `" "`. -/
def spOne : List Char := ' ' :: []

/-- One candidate break of `_split_for_telegram_raw`: `rfind` the separator
`sub` in `chunk` and, if the found index passes the `> limit * 0.4` test,
return the split index `idx + len(sub)`. -/
def tryBreak (chunk : List Char) (limit : Nat) (sub : List Char) : Option Nat :=
  match pyRfind chunk sub with
  | some idx => if acceptsBreak idx limit then some (idx + sub.length) else none
  | none => none

/-- The break-point cascade of `_split_for_telegram_raw` (lines 212-239 of
`telegram_sender.py`): double newline, single newline, `". "`, `"! "`,
`"? "`, single space, and finally the hard cut at `limit`. -/
def findSplitIdx (chunk : List Char) (limit : Nat) : Nat :=
  match tryBreak chunk limit nl2 with
  | some v => v
  | none =>
    match tryBreak chunk limit nl1 with
    | some v => v
    | none =>
      match tryBreak chunk limit dotSp with
      | some v => v
      | none =>
        match tryBreak chunk limit bangSp with
        | some v => v
        | none =>
          match tryBreak chunk limit questSp with
          | some v => v
          | none =>
            match tryBreak chunk limit spOne with
            | some v => v
            | none => limit

/-- One iteration of the `while remaining:` loop of
`_split_for_telegram_raw` in the oversized case: compute the split index on
the window `remaining[:limit]`, emit `remaining[:split_idx].rstrip()`, and
continue with `remaining[split_idx:].lstrip()`. -/
def splitStep (remaining : List Char) (limit : Nat) : List Char × List Char :=
  let k := findSplitIdx (remaining.take limit) limit
  (pyRstrip (remaining.take k), pyLstrip (remaining.drop k))

/-- The `while remaining:` loop of `_split_for_telegram_raw`, with explicit
fuel.  The fuel case `0` with a non-empty remainder is unreachable when the
loop is started with fuel `text.length` and `1 ≤ limit`
(`splitStep_snd_lt` below shows each iteration consumes at least one
character). -/
def splitLoop (limit : Nat) : Nat → List Char → List (List Char)
  | _, [] => []
  | 0, c :: t => [c :: t]
  | fuel + 1, c :: t =>
    if (c :: t).length ≤ limit then [c :: t]
    else
      (splitStep (c :: t) limit).1 ::
        splitLoop limit fuel (splitStep (c :: t) limit).2

/-- `_split_for_telegram_raw(text, limit)` (`telegram_sender.py` lines
182-245): return `[text]` unchanged when it already fits, otherwise run the
chunking loop and truncate every part to `limit` (`[p[:limit] for p in
parts]`). -/
def _split_for_telegram_raw (text : List Char) (limit : Nat) : List (List Char) :=
  if text.length ≤ limit then [text]
  else (splitLoop limit text.length text).map (fun p => p.take limit)

/-- One sentence-ender attempt of `compress_with_gemini_if_needed`: `rfind`
the ender and, if accepted by the `> max_chars * 0.4` test, cut after it. -/
def tryEnder (s : List Char) (max_chars : Nat) (ender : List Char) : Option (List Char) :=
  match pyRfind s ender with
  | some idx =>
    if acceptsBreak idx max_chars then some (s.take (idx + ender.length)) else none
  | none => none

/-- The `for ender in [". ", "! ", "? "]` loop of
`compress_with_gemini_if_needed`: first accepted ender wins. -/
def tryEnders (s : List Char) (max_chars : Nat) : Option (List Char) :=
  match tryEnder s max_chars dotSp with
  | some cut => some cut
  | none =>
    match tryEnder s max_chars bangSp with
    | some cut => some cut
    | none => tryEnder s max_chars questSp

/-- Lines 170-175 of `telegram_sender.py`: after hard-truncating an
overlong rewrite, try to make the cut cleaner at a sentence ender;
otherwise keep the hard truncation. -/
def enderCut (s : List Char) (max_chars : Nat) : List Char :=
  match tryEnders s max_chars with
  | some cut => cut
  | none => s

/-- The fallback naive trim of `compress_with_gemini_if_needed` (lines
153-164): truncate to `max_chars`, cut at the last accepted sentence ender,
failing that at the last accepted space (`trimmed[:idx]`), failing that
return the hard truncation; every branch is `.strip()`ped. -/
def naiveTrim (text : List Char) (max_chars : Nat) : List Char :=
  let trimmed := text.take max_chars
  match tryEnders trimmed max_chars with
  | some cut => pyStrip cut
  | none =>
    match pyRfind trimmed spOne with
    | some idx =>
      if acceptsBreak idx max_chars then pyStrip (trimmed.take idx) else pyStrip trimmed
    | none => pyStrip trimmed

/-- `compress_with_gemini_if_needed(text, max_chars)` (`telegram_sender.py`
lines 122-177).  The Gemini rewrite is the `oracle` argument: `none` stands
for `_call_gemini` returning `None` (no key, or an error); `some []` is the
falsy empty answer, which also takes the fallback branch. -/
def compress_with_gemini_if_needed (oracle : Option (List Char))
    (text0 : List Char) (max_chars : Nat) : List Char :=
  if text0 = [] then []
  else
    let text := pyStrip text0
    if text.length ≤ max_chars then text
    else
      match oracle with
      | none => naiveTrim text max_chars
      | some rw =>
        if rw = [] then naiveTrim text max_chars
        else
          let rw1 := pyStrip rw
          if max_chars < rw1.length then
            pyStrip (enderCut (rw1.take max_chars) max_chars)
          else pyStrip rw1

/-- One character of Python `html.escape(s)` with its default `quote=True`
(every call site in `telegram_sender.py` uses the default or passes
`quote=True` explicitly): `&`, `<`, `>`, the double quote and the single
quote are replaced by their entities. -/
def htmlEscapeChar (c : Char) : List Char :=
  if c = '&' then '&' :: 'a' :: 'm' :: 'p' :: ';' :: []
  else if c = '<' then '&' :: 'l' :: 't' :: ';' :: []
  else if c = '>' then '&' :: 'g' :: 't' :: ';' :: []
  else if c = Char.ofNat 34 then '&' :: 'q' :: 'u' :: 'o' :: 't' :: ';' :: []
  else if c = Char.ofNat 39 then '&' :: '#' :: 'x' :: '2' :: '7' :: ';' :: []
  else [c]

/-- Python `html.escape(s)` (default `quote=True`). -/
def htmlEscape (s : List Char) : List Char := s.flatMap htmlEscapeChar

/-- First index in `l` at which the delimiter `d` occurs
doubled, scanning left to right (the backtracking search for the closing
`\4` of the non-greedy `(.+?)` in the bold pattern). -/
def findPair (d : Char) : List Char → Option Nat
  | a :: b :: rest =>
    if a == d && b == d then some 0 else (findPair d (b :: rest)).map (· + 1)
  | _ => none

/-- First index in `l` of a closing italic delimiter `d` that satisfies the
regex lookarounds `(?<!d)d(?!d)`: the character before it (`prev` for the
head) is not `d` and the character after it is not `d`. -/
def findItalicClose (d : Char) (prev : Char) : List Char → Option Nat
  | [] => none
  | a :: rest =>
    if a == d && prev != d &&
        (match rest with | b :: _ => b != d | [] => true) then some 0
    else (findItalicClose d a rest).map (· + 1)

/-- Splits a Markdown URL into its scheme and the rest: the regex
`https?://` with the greedy optional `s`. -/
def schemeSplit (u : List Char) : Option (List Char × List Char) :=
  if leadsWith ('h' :: 't' :: 't' :: 'p' :: 's' :: ':' :: '/' :: '/' :: []) u then
    some ('h' :: 't' :: 't' :: 'p' :: 's' :: ':' :: '/' :: '/' :: [], u.drop 8)
  else if leadsWith ('h' :: 't' :: 't' :: 'p' :: ':' :: '/' :: '/' :: []) u then
    some ('h' :: 't' :: 't' :: 'p' :: ':' :: '/' :: '/' :: [], u.drop 7)
  else none

/-- Attempts the link alternative `\[([^\]]+)\]\((https?://[^)\s]+)\)` of
`render_html_with_basic_md`'s token regex at the head of `s`.  On success
returns the rendered `<a href="...">...</a>`, the last character consumed
(for the lookbehind of a later token) and the rest of the input. -/
def matchLink (s : List Char) : Option (List Char × Char × List Char) :=
  match s with
  | '[' :: t =>
    let label := t.takeWhile (fun c => c != ']')
    match label, t.drop label.length with
    | _ :: _, ']' :: '(' :: u =>
      match schemeSplit u with
      | some sv =>
        let run := sv.2.takeWhile (fun c => !(c == ')') && !(pyWS c))
        match run, sv.2.drop run.length with
        | _ :: _, ')' :: w =>
          some (('<' :: 'a' :: ' ' :: 'h' :: 'r' :: 'e' :: 'f' :: '=' :: Char.ofNat 34 :: []) ++
                  htmlEscape (sv.1 ++ run) ++ (Char.ofNat 34 :: '>' :: []) ++
                  htmlEscape label ++ ('<' :: '/' :: 'a' :: '>' :: []),
                ')', w)
        | _, _ => none
      | none => none
    | _, _ => none
  | _ => none

/-- Attempts the bold alternative `(dd)(.+?)\4` (for `d` one of `*`, `_`) at
the head of `s`: a doubled delimiter, a minimal non-empty inner text, and
the same doubled delimiter again. -/
def matchBold (d : Char) (s : List Char) : Option (List Char × Char × List Char) :=
  match s with
  | a :: b :: t =>
    if a == d && b == d then
      match findPair d (t.drop 1) with
      | some i =>
        some (('<' :: 'b' :: '>' :: []) ++ htmlEscape (t.take (i + 1)) ++
                ('<' :: '/' :: 'b' :: '>' :: []),
              d, t.drop (i + 3))
      | none => none
    else none
  | _ => none

/-- Attempts the italic alternative `(?<!d)d(?!d)(.+?)(?<!d)d(?!d)` at the
head of `s`, where `prev` is the character preceding `s` in the whole input
(the opening lookbehind reaches outside the match). -/
def matchItalic (d : Char) (prev : Option Char) (s : List Char) :
    Option (List Char × Char × List Char) :=
  match s with
  | a :: x :: t =>
    if a == d && prev != some d && x != d then
      match findItalicClose d x t with
      | some i =>
        some (('<' :: 'i' :: '>' :: []) ++ htmlEscape (x :: t.take i) ++
                ('<' :: '/' :: 'i' :: '>' :: []),
              d, t.drop (i + 1))
      | none => none
    else none
  | _ => none

/-- Attempts the full token regex of `render_html_with_basic_md` at the head
of `s`, in the regex's alternation order: link, bold `**`, bold `__`,
italic `*`, italic `_`. -/
def matchToken (prev : Option Char) (s : List Char) :
    Option (List Char × Char × List Char) :=
  match matchLink s with
  | some r => some r
  | none =>
    match matchBold '*' s with
    | some r => some r
    | none =>
      match matchBold '_' s with
      | some r => some r
      | none =>
        match matchItalic '*' prev s with
        | some r => some r
        | none => matchItalic '_' prev s

/-- The `finditer` scan of `render_html_with_basic_md`: at each position try
the token regex; on a match emit its rendering and resume after it, else
HTML-escape the character and move on.  `fuel` bounds the recursion; every
token consumes at least one character, so fuel `s.length` is sufficient and
the fuel-exhaustion branch (which escapes the rest) is unreachable. -/
def renderScan (fuel : Nat) (prev : Option Char) (s : List Char) : List Char :=
  match fuel, s with
  | _, [] => []
  | 0, rest => htmlEscape rest
  | fuel + 1, c :: t =>
    match matchToken prev (c :: t) with
    | some r => r.1 ++ renderScan fuel (some r.2.1) r.2.2
    | none => htmlEscapeChar c ++ renderScan fuel (some c) t

/-- `render_html_with_basic_md(text)` (`telegram_sender.py` lines 67-117):
empty input renders to empty output, otherwise the single regex scan. -/
def render_html_with_basic_md (text : List Char) : List Char :=
  if text = [] then [] else renderScan text.length none text

/-- `MESSAGE_LIMIT = 4096` (`telegram_sender.py` line 11). -/
def MESSAGE_LIMIT : Nat := 4096

/-- `CAPTION_LIMIT = 1024` (`telegram_sender.py` line 12). -/
def CAPTION_LIMIT : Nat := 1024

/-- `SAFE_TEXT_BODY = 3600` (`telegram_sender.py` line 15). -/
def SAFE_TEXT_BODY : Nat := 3600

/-- `SAFE_CAPTION_BODY = 850` (`telegram_sender.py` line 16). -/
def SAFE_CAPTION_BODY : Nat := 850

/-- The category tag `f"[<b>{html.escape(post_type)}</b>]\n\n"` prepended to
the first chunk / the caption. -/
def typeTagOf (post_type : List Char) : List Char :=
  ('[' :: '<' :: 'b' :: '>' :: []) ++ htmlEscape post_type ++
    ('<' :: '/' :: 'b' :: '>' :: ']' :: '\n' :: '\n' :: [])

/-- One external Telegram delivery call, carrying the HTML payload handed to
`requests.post` (the `text` of `sendMessage`, or the `caption` of
`sendPhoto` / `sendVideo`). -/
inductive TgCall where
  | sendMessage (body : List Char)
  | sendPhoto (caption : List Char)
  | sendVideo (caption : List Char)
deriving DecidableEq, Repr

/-- True exactly for text (`sendMessage`) calls. -/
def TgCall.isTextCall : TgCall → Bool
  | .sendMessage _ => true
  | _ => false

/-- `send_telegram_message_html(translated_text, ..., post_type)`
(`telegram_sender.py` lines 250-308), as the ordered list of delivery calls
it performs (credentials assumed configured — the guard on missing
credentials returns `[]` before any call).  Compress to `SAFE_TEXT_BODY`,
split at `MESSAGE_LIMIT` as a safety net, render each raw chunk, and
prepend the type tag after rendering to the first chunk only, when
`post_type` is truthy. -/
def send_telegram_message_html (oracle : Option (List Char))
    (translated_text : List Char) (post_type : Option (List Char)) : List TgCall :=
  let safe_text := compress_with_gemini_if_needed oracle translated_text SAFE_TEXT_BODY
  let raw_chunks := _split_for_telegram_raw safe_text MESSAGE_LIMIT
  raw_chunks.enum.map (fun p =>
    let safe_html := render_html_with_basic_md p.2
    match post_type with
    | some pt =>
      if pt ≠ [] ∧ p.1 = 0 then TgCall.sendMessage (typeTagOf pt ++ safe_html)
      else TgCall.sendMessage safe_html
    | none => TgCall.sendMessage safe_html)

/-- `send_photo_to_telegram_channel(image_path, translated_caption, ...,
post_type)` (`telegram_sender.py` lines 311-386), as the ordered list of
delivery calls (credentials configured, image file present).  Compress the
caption to `SAFE_CAPTION_BODY`, hard-split at `CAPTION_LIMIT` into head and
tail, render the head and tag it once, send the photo, and dispatch a
non-empty tail through `send_telegram_message_html` with `post_type=None`.
The two oracle arguments are the Gemini calls of the caption compression
and of the follow-up text path's own compression. -/
def send_photo_to_telegram_channel (oracleCap oracleTail : Option (List Char))
    (translated_caption : List Char) (post_type : Option (List Char)) : List TgCall :=
  let safe_caption := compress_with_gemini_if_needed oracleCap translated_caption SAFE_CAPTION_BODY
  let head_raw := if safe_caption.length ≤ CAPTION_LIMIT then safe_caption
    else safe_caption.take CAPTION_LIMIT
  let tail_raw := if safe_caption.length ≤ CAPTION_LIMIT then ([] : List Char)
    else safe_caption.drop CAPTION_LIMIT
  let caption_head_html := render_html_with_basic_md head_raw
  let caption_head_html := match post_type with
    | some pt => if pt ≠ [] then typeTagOf pt ++ caption_head_html else caption_head_html
    | none => caption_head_html
  TgCall.sendPhoto caption_head_html ::
    (if tail_raw ≠ [] then send_telegram_message_html oracleTail tail_raw none else [])

/-- Modelled from the spec: `send_video_to_telegram_channel` is imported by
`exchange_info_ai_agent.py` from `utils.telegram_sender` but its definition
is absent from the provided sources.  Spec section 4.4 prescribes one
caption path shared by photo and video ("Photo/Video with caption: compress
caption text to the (smaller) caption-body budget, then hard-split at the
protocol's caption byte limit into head ... and tail", tail dispatched
through the text-only path with the tag suppressed), so the video path is
modelled exactly like `send_photo_to_telegram_channel` with a video send. -/
def send_video_to_telegram_channel (oracleCap oracleTail : Option (List Char))
    (translated_caption : List Char) (post_type : Option (List Char)) : List TgCall :=
  let safe_caption := compress_with_gemini_if_needed oracleCap translated_caption SAFE_CAPTION_BODY
  let head_raw := if safe_caption.length ≤ CAPTION_LIMIT then safe_caption
    else safe_caption.take CAPTION_LIMIT
  let tail_raw := if safe_caption.length ≤ CAPTION_LIMIT then ([] : List Char)
    else safe_caption.drop CAPTION_LIMIT
  let caption_head_html := render_html_with_basic_md head_raw
  let caption_head_html := match post_type with
    | some pt => if pt ≠ [] then typeTagOf pt ++ caption_head_html else caption_head_html
    | none => caption_head_html
  TgCall.sendVideo caption_head_html ::
    (if tail_raw ≠ [] then send_telegram_message_html oracleTail tail_raw none else [])

/-- One source message as consumed by `main()` of
`exchange_info_ai_agent.py` (the fields of `fetch_latest_messages` that the
pipeline reads). -/
structure Msg where
  id : Nat
  text : List Char
  has_photo : Bool
  has_video : Bool
deriving DecidableEq, Repr

/-- The dedup key `f"{channel_username}:{msg_id}"` of
`exchange_info_ai_agent.py` line 63. -/
def msg_key (channel_username : List Char) (msg_id : Nat) : List Char :=
  channel_username ++ ':' :: Nat.toDigits 10 msg_id

/-- Pairs each delivery call with the transport's success flag for it
(`requests.post(...).ok` of the i-th call), in dispatch order.  The send
functions report a non-success response and continue (`telegram_sender.py`
lines 296-306), so the flags never influence control flow. -/
def attachOutcomes (transport : Nat → Bool) (calls : List TgCall) :
    List (TgCall × Bool) :=
  calls.enum.map (fun p => (p.2, transport p.1))

/-- The observable outcome of processing one message in `main()`'s inner
loop: the in-memory `posted_messages` set (as a list), the delivery calls
made with their transport outcomes, whether `translate_text_gemini` was
invoked, and the `message_key`s of the records appended to
`result_output`. -/
structure StepOut where
  posted : List (List Char)
  dispatched : List (TgCall × Bool)
  translated : Bool
  results : List (List Char)
deriving DecidableEq, Repr

/-- One iteration of the `for msg in messages:` loop of `main()`
(`exchange_info_ai_agent.py` lines 59-139): build the key, skip a
duplicate before translating or dispatching, otherwise translate, dispatch
by media priority (video over photo over text), then unconditionally add
the key to `posted_messages` and append the record to `result_output`
(the send functions swallow transport failures internally, so the dispatch
cannot raise and the marking always runs). -/
def process_message (translate : List Char → List Char)
    (oracle : Option (List Char)) (transport : Nat → Bool)
    (channel_username : List Char) (channel_type : Option (List Char))
    (posted : List (List Char)) (msg : Msg) : StepOut :=
  let key := msg_key channel_username msg.id
  if key ∈ posted then
    { posted := posted, dispatched := [], translated := false, results := [] }
  else
    let translated := translate msg.text
    let calls :=
      if msg.has_video then
        send_video_to_telegram_channel oracle oracle translated channel_type
      else if msg.has_photo then
        send_photo_to_telegram_channel oracle oracle translated channel_type
      else send_telegram_message_html oracle translated channel_type
    { posted := posted ++ [key]
      dispatched := attachOutcomes transport calls
      translated := true
      results := [key] }

lemma length_dropWhile_le_ws (p : Char → Bool) (l : List Char) :
    (l.dropWhile p).length ≤ l.length := by
  have h := congrArg List.length (List.takeWhile_append_dropWhile p l)
  rw [List.length_append] at h
  omega

lemma pyLstrip_length_le (l : List Char) : (pyLstrip l).length ≤ l.length :=
  length_dropWhile_le_ws pyWS l

lemma pyRstrip_length_le (l : List Char) : (pyRstrip l).length ≤ l.length := by
  have h := length_dropWhile_le_ws pyWS l.reverse
  simpa [pyRstrip] using h

lemma pyStrip_length_le (l : List Char) : (pyStrip l).length ≤ l.length :=
  (pyLstrip_length_le (pyRstrip l)).trans (pyRstrip_length_le l)

lemma pyLstrip_decomp (l : List Char) :
    ∃ w, (∀ x ∈ w, pyWS x = true) ∧ l = w ++ pyLstrip l :=
  ⟨l.takeWhile pyWS, fun _ hx => List.mem_takeWhile_imp hx,
    (List.takeWhile_append_dropWhile pyWS l).symm⟩

lemma pyRstrip_decomp (l : List Char) :
    ∃ w, (∀ x ∈ w, pyWS x = true) ∧ l = pyRstrip l ++ w := by
  refine ⟨(l.reverse.takeWhile pyWS).reverse, ?_, ?_⟩
  · intro x hx
    rw [List.mem_reverse] at hx
    exact List.mem_takeWhile_imp hx
  · conv_lhs => rw [← List.reverse_reverse l,
      ← List.takeWhile_append_dropWhile pyWS l.reverse]
    rw [List.reverse_append]
    rfl

lemma leadsWith_length (sub hay : List Char) (h : leadsWith sub hay = true) :
    sub.length ≤ hay.length := by
  induction sub generalizing hay with
  | nil => simp
  | cons a s ih =>
    cases hay with
    | nil => simp [leadsWith] at h
    | cons b t =>
      rw [leadsWith, Bool.and_eq_true] at h
      simpa using ih t h.2

lemma pyRfind_bound (hay sub : List Char) (i : Nat) (h : pyRfind hay sub = some i) :
    i ≤ hay.length ∧ sub.length ≤ hay.length - i := by
  unfold pyRfind at h
  have h1 := List.find?_some h
  have h2 := List.mem_of_find?_eq_some h
  rw [List.mem_reverse, List.mem_range] at h2
  have h3 := leadsWith_length _ _ h1
  rw [List.length_drop] at h3
  exact ⟨by omega, h3⟩

lemma tryBreak_le (chunk : List Char) (limit : Nat) (sub : List Char) (v : Nat)
    (h : tryBreak chunk limit sub = some v) : v ≤ chunk.length := by
  unfold tryBreak at h
  split at h
  · rename_i idx hidx
    split at h
    · injection h with h
      have := pyRfind_bound _ _ _ hidx
      omega
    · exact absurd h (by simp)
  · exact absurd h (by simp)

lemma tryBreak_pos (chunk : List Char) (limit : Nat) (sub : List Char) (v : Nat)
    (hsub : sub ≠ []) (h : tryBreak chunk limit sub = some v) : 1 ≤ v := by
  unfold tryBreak at h
  split at h
  · rename_i idx hidx
    split at h
    · injection h with h
      have := List.length_pos.mpr hsub
      omega
    · exact absurd h (by simp)
  · exact absurd h (by simp)

lemma findSplitIdx_le (chunk : List Char) (limit : Nat) (h : chunk.length ≤ limit) :
    findSplitIdx chunk limit ≤ limit := by
  unfold findSplitIdx
  repeat' split
  all_goals
    first
      | exact le_refl _
      | (rename_i v hv; exact (tryBreak_le _ _ _ _ hv).trans h)

lemma findSplitIdx_pos (chunk : List Char) (limit : Nat) (h : 1 ≤ limit) :
    1 ≤ findSplitIdx chunk limit := by
  unfold findSplitIdx
  repeat' split
  all_goals
    first
      | exact h
      | (rename_i v hv; exact tryBreak_pos _ _ _ _ (by decide) hv)

lemma splitStep_fst_le (r : List Char) (limit : Nat) :
    (splitStep r limit).1.length ≤ limit := by
  have h1 : (r.take limit).length ≤ limit := by simp
  have h2 := findSplitIdx_le (r.take limit) limit h1
  calc (splitStep r limit).1.length
      ≤ (r.take (findSplitIdx (r.take limit) limit)).length := pyRstrip_length_le _
    _ ≤ findSplitIdx (r.take limit) limit := by simp
    _ ≤ limit := h2

lemma splitStep_snd_lt (r : List Char) (limit : Nat) (h1 : 1 ≤ limit)
    (h2 : limit < r.length) : (splitStep r limit).2.length < r.length := by
  have hk := findSplitIdx_pos (r.take limit) limit h1
  calc (splitStep r limit).2.length
      ≤ (r.drop (findSplitIdx (r.take limit) limit)).length := pyLstrip_length_le _
    _ = r.length - findSplitIdx (r.take limit) limit := List.length_drop ..
    _ < r.length := by omega

lemma splitStep_decomp (r : List Char) (limit : Nat) :
    ∃ w, (∀ x ∈ w, pyWS x = true) ∧
      r = (splitStep r limit).1 ++ ((w : List Char) ++ (splitStep r limit).2) := by
  obtain ⟨w1, hw1, he1⟩ := pyRstrip_decomp (r.take (findSplitIdx (r.take limit) limit))
  obtain ⟨w2, hw2, he2⟩ := pyLstrip_decomp (r.drop (findSplitIdx (r.take limit) limit))
  refine ⟨w1 ++ w2, ?_, ?_⟩
  · intro x hx
    rcases List.mem_append.1 hx with hx | hx
    exacts [hw1 x hx, hw2 x hx]
  · calc r = r.take (findSplitIdx (r.take limit) limit) ++
            r.drop (findSplitIdx (r.take limit) limit) :=
          (List.take_append_drop _ r).symm
      _ = (pyRstrip (r.take (findSplitIdx (r.take limit) limit)) ++ w1) ++
            (w2 ++ pyLstrip (r.drop (findSplitIdx (r.take limit) limit))) := by
          rw [← he1, ← he2]
      _ = (splitStep r limit).1 ++ ((w1 ++ w2) ++ (splitStep r limit).2) := by
          simp [splitStep, List.append_assoc]

/-- `JoinsWithWs chunks text`: re-joining `chunks` in order, inserting some
all-whitespace text at each chunk boundary (including the boundary after
the last chunk, where the loop's final `rstrip`/`lstrip` may have dropped
trailing whitespace), reconstructs `text` exactly. -/
inductive JoinsWithWs : List (List Char) → List Char → Prop
  | last (c ws : List Char) (hws : ∀ x ∈ ws, pyWS x = true) :
      JoinsWithWs [c] (c ++ ws)
  | cons (c ws : List Char) (rest : List (List Char)) (t : List Char)
      (hws : ∀ x ∈ ws, pyWS x = true) (h : JoinsWithWs rest t) :
      JoinsWithWs (c :: rest) (c ++ (ws ++ t))

lemma joinsWithWs_self (c : List Char) : JoinsWithWs [c] c := by
  have h := JoinsWithWs.last c [] (by simp)
  simpa using h

lemma splitLoop_spec (limit : Nat) (hlim : 1 ≤ limit) :
    ∀ fuel remaining, remaining ≠ [] → remaining.length ≤ fuel →
      (∀ p ∈ splitLoop limit fuel remaining, p.length ≤ limit) ∧
        JoinsWithWs (splitLoop limit fuel remaining) remaining := by
  intro fuel
  induction fuel with
  | zero =>
    intro remaining hne hlen
    exact absurd (List.eq_nil_of_length_eq_zero (Nat.le_zero.1 hlen)) hne
  | succ fuel ih =>
    intro remaining hne hlen
    match remaining, hne with
    | c :: t, _ =>
      rw [splitLoop]
      split
      · rename_i hshort
        exact ⟨by intro p hp; simp at hp; subst hp; exact hshort,
          joinsWithWs_self _⟩
      · rename_i hlong
        push_neg at hlong
        obtain ⟨w, hw, hdec⟩ := splitStep_decomp (c :: t) limit
        have hlt := splitStep_snd_lt (c :: t) limit hlim hlong
        by_cases hrest : (splitStep (c :: t) limit).2 = []
        · rw [hrest, List.append_nil] at hdec
          rw [hrest]
          refine ⟨?_, ?_⟩
          · intro p hp
            simp [splitLoop] at hp
            subst hp
            exact splitStep_fst_le _ _
          · have hj : JoinsWithWs [(splitStep (c :: t) limit).1]
                ((splitStep (c :: t) limit).1 ++ w) := .last _ w hw
            rw [← hdec] at hj
            simpa [splitLoop] using hj
        · have hfuel : (splitStep (c :: t) limit).2.length ≤ fuel := by
            simp at hlen hlt
            omega
          obtain ⟨hbound, hjoin⟩ := ih (splitStep (c :: t) limit).2 hrest hfuel
          refine ⟨?_, ?_⟩
          · intro p hp
            rcases List.mem_cons.1 hp with hp | hp
            · subst hp; exact splitStep_fst_le _ _
            · exact hbound p hp
          · have hj : JoinsWithWs
                ((splitStep (c :: t) limit).1 ::
                  splitLoop limit fuel (splitStep (c :: t) limit).2)
                ((splitStep (c :: t) limit).1 ++ (w ++ (splitStep (c :: t) limit).2)) :=
              .cons _ w _ _ hw hjoin
            rw [← hdec] at hj
            exact hj

lemma map_take_id (limit : Nat) (l : List (List Char))
    (h : ∀ p ∈ l, p.length ≤ limit) : l.map (fun p => p.take limit) = l := by
  induction l with
  | nil => rfl
  | cons a t ih =>
    rw [List.map_cons, List.take_of_length_le (h a (by simp)),
      ih (fun p hp => h p (by simp [hp]))]

/-- C4: for every input string and every limit ≥ 1, re-joining the chunks
returned by `_split_for_telegram_raw` with the whitespace stripped at each
chunk boundary reconstructs the input exactly (the split is lossless up to
boundary whitespace normalization). -/
theorem split_rejoins_input (text : List Char) (limit : Nat) (h : 1 ≤ limit) :
    JoinsWithWs (_split_for_telegram_raw text limit) text := by
  unfold _split_for_telegram_raw
  split
  · exact joinsWithWs_self text
  · rename_i hlong
    push_neg at hlong
    have hne : text ≠ [] := by
      intro he
      subst he
      simp at hlong
    obtain ⟨hbound, hjoin⟩ := splitLoop_spec limit h text.length text hne (le_refl _)
    rw [map_take_id limit _ hbound]
    exact hjoin

theorem split_rejoins_input_witness :
    1 ≤ 2 ∧ JoinsWithWs (_split_for_telegram_raw ('a' :: ' ' :: 'b' :: 'c' :: []) 2)
      ('a' :: ' ' :: 'b' :: 'c' :: []) :=
  ⟨by decide, split_rejoins_input _ 2 (by decide)⟩

/-- C8: for every input string and every limit ≥ 1, every chunk returned by
`_split_for_telegram_raw` has length at most `limit`, including chunks
produced by the hard-cut fallback (the final `[p[:limit] for p in parts]`
enforces the bound on every loop path). -/
theorem split_chunk_length_le (text : List Char) (limit : Nat) (c : List Char)
    (h : 1 ≤ limit) (hc : c ∈ _split_for_telegram_raw text limit) :
    c.length ≤ limit := by
  unfold _split_for_telegram_raw at hc
  split at hc
  · rename_i hshort
    simp at hc
    subst hc
    exact hshort
  · simp at hc
    obtain ⟨p, hp, rfl⟩ := hc
    simp

theorem split_chunk_length_le_witness :
    (1 ≤ 1 ∧ ('a' :: []) ∈ _split_for_telegram_raw ('a' :: 'b' :: []) 1) ∧
      ('a' :: []).length ≤ 1 :=
  ⟨⟨by decide, by decide⟩,
    split_chunk_length_le ('a' :: 'b' :: []) 1 ('a' :: []) (by decide) (by decide)⟩

/-- C5 counterexample: on the input `" a "` (length 3) with limit 10 the
splitter returns the input unchanged, not the trimmed input the claim
demands: the short path is `return [text]`, with no `strip`. -/
theorem split_short_input_counterexample :
    _split_for_telegram_raw (' ' :: 'a' :: ' ' :: []) 10 = [' ' :: 'a' :: ' ' :: []] ∧
      _split_for_telegram_raw (' ' :: 'a' :: ' ' :: []) 10 ≠
        [pyStrip (' ' :: 'a' :: ' ' :: [])] := by
  decide

/-- C5 amended: for every input string whose length is strictly less than
the limit, `_split_for_telegram_raw` returns the single-element sequence
holding the input unchanged (not trimmed). -/
theorem split_short_input_unchanged (text : List Char) (limit : Nat)
    (h : text.length < limit) : _split_for_telegram_raw text limit = [text] := by
  unfold _split_for_telegram_raw
  rw [if_pos (Nat.le_of_lt h)]

theorem split_short_input_unchanged_witness :
    (' ' :: 'a' :: ' ' :: []).length < 10 ∧
      _split_for_telegram_raw (' ' :: 'a' :: ' ' :: []) 10 = [' ' :: 'a' :: ' ' :: []] :=
  ⟨by decide, split_short_input_unchanged _ 10 (by decide)⟩

/-- C10: for limit ≥ 1 the chunking loop of `_split_for_telegram_raw`
terminates: every accepted break index is at least 1 (any found separator
contributes its own length, and the hard cut is `limit` itself), so each
iteration strictly shrinks the remaining text. -/
theorem split_iteration_consumes (r : List Char) (limit : Nat) (h1 : 1 ≤ limit)
    (h2 : limit < r.length) :
    1 ≤ findSplitIdx (r.take limit) limit ∧
      (splitStep r limit).2.length < r.length :=
  ⟨findSplitIdx_pos _ _ h1, splitStep_snd_lt r limit h1 h2⟩

theorem split_iteration_consumes_witness :
    (1 ≤ 1 ∧ 1 < ('a' :: 'b' :: 'c' :: 'd' :: []).length) ∧
      (1 ≤ findSplitIdx (('a' :: 'b' :: 'c' :: 'd' :: []).take 1) 1 ∧
        (splitStep ('a' :: 'b' :: 'c' :: 'd' :: []) 1).2.length <
          ('a' :: 'b' :: 'c' :: 'd' :: []).length) :=
  ⟨⟨by decide, by decide⟩, split_iteration_consumes _ 1 (by decide) (by decide)⟩

lemma tryEnder_length_le (s : List Char) (m : Nat) (e cut : List Char)
    (h : tryEnder s m e = some cut) : cut.length ≤ s.length := by
  unfold tryEnder at h
  split at h
  · split at h
    · injection h with h
      subst h
      simp
    · exact absurd h (by simp)
  · exact absurd h (by simp)

lemma tryEnders_length_le (s : List Char) (m : Nat) (cut : List Char)
    (h : tryEnders s m = some cut) : cut.length ≤ s.length := by
  unfold tryEnders at h
  repeat' split at h
  all_goals
    first
      | exact tryEnder_length_le _ _ _ _ h
      | (rename_i cut' hcut
         injection h with h
         subst h
         exact tryEnder_length_le _ _ _ _ hcut)

lemma enderCut_length_le (s : List Char) (m : Nat) :
    (enderCut s m).length ≤ s.length := by
  unfold enderCut
  split
  · rename_i cut hcut
    exact tryEnders_length_le _ _ _ hcut
  · exact le_refl _

lemma naiveTrim_length_le (text : List Char) (m : Nat) :
    (naiveTrim text m).length ≤ m := by
  have htr : (text.take m).length ≤ m := by simp
  simp only [naiveTrim]
  split
  · rename_i cut hcut
    exact ((pyStrip_length_le cut).trans (tryEnders_length_le _ _ _ hcut)).trans htr
  · split
    · split
      · rename_i idx hidx hacc
        calc (pyStrip ((text.take m).take idx)).length
            ≤ ((text.take m).take idx).length := pyStrip_length_le _
          _ ≤ (text.take m).length := by simp
          _ ≤ m := htr
      · exact (pyStrip_length_le _).trans htr
    · exact (pyStrip_length_le _).trans htr

lemma compress_length_le (o : Option (List Char)) (t : List Char) (m : Nat) :
    (compress_with_gemini_if_needed o t m).length ≤ m := by
  simp only [compress_with_gemini_if_needed]
  split
  · simp
  · split
    · rename_i hfits
      exact hfits
    · split
      · exact naiveTrim_length_le _ _
      · rename_i rw
        split
        · exact naiveTrim_length_le _ _
        · split
          · rename_i hover
            calc (pyStrip (enderCut ((pyStrip rw).take m) m)).length
                ≤ (enderCut ((pyStrip rw).take m) m).length := pyStrip_length_le _
              _ ≤ ((pyStrip rw).take m).length := enderCut_length_le _ _
              _ ≤ m := by simp
          · rename_i hfit
            push_neg at hfit
            exact (pyStrip_length_le _).trans hfit

/-- C3: for every input, every oracle behaviour of the external rewrite
(absent, failing, or returning arbitrary text, even text longer than the
budget), and every N ≥ 1, `compress_with_gemini_if_needed` returns text of
length at most N: the hard final truncation enforces the budget on every
path. -/
theorem compress_output_length_le (oracle : Option (List Char)) (raw : List Char)
    (N : Nat) (h : 1 ≤ N) :
    (compress_with_gemini_if_needed oracle raw N).length ≤ N :=
  compress_length_le oracle raw N

theorem compress_output_length_le_witness :
    1 ≤ 3 ∧ (compress_with_gemini_if_needed
      (some ('w' :: 'a' :: 'y' :: ' ' :: 't' :: 'o' :: 'o' :: ' ' :: 'l' :: 'o' :: 'n' :: 'g' :: []))
      ('o' :: 'v' :: 'e' :: 'r' :: 's' :: 'i' :: 'z' :: 'e' :: 'd' :: []) 3).length ≤ 3 :=
  ⟨by decide, compress_output_length_le _ _ 3 (by decide)⟩

/-- C9: on `"Hello **world** and [site](https://example.com)"`, the
renderer produces bold markup around `world` and link markup around `site`
pointing at `https://example.com`, with the surrounding plain text
HTML-escaped (here: unchanged, as it holds no reserved characters). -/
theorem render_example_output :
    render_html_with_basic_md ("Hello **world** and [site](https://example.com)".data) =
      ("Hello <b>world</b> and <a href=\"https://example.com\">site</a>".data) := by
  decide

/-- C6 counterexample: `render` is not idempotent under re-escaping: on the
fixed string `"& < >"` containing the three reserved characters, applying
`render` to the already-escaped text escapes the entity ampersands again
(`html.escape` replaces every `&` unconditionally). -/
theorem render_not_idempotent_on_escaped :
    render_html_with_basic_md (render_html_with_basic_md ("& < >".data)) ≠
      render_html_with_basic_md ("& < >".data) := by
  decide

/-- C6 amended: applying `render` to text whose reserved characters are
already escaped double-escapes the entity ampersands: on the fixed
escaped string `"&amp; &lt; &gt;"` the renderer yields
`"&amp;amp; &amp;lt; &amp;gt;"`, so the round-trip is not idempotent. -/
theorem render_double_escapes :
    render_html_with_basic_md ("&amp; &lt; &gt;".data) =
      ("&amp;amp; &amp;lt; &amp;gt;".data) := by
  decide

lemma send_photo_calls_shape (oc ot : Option (List Char)) (cap pt : List Char)
    (hpt : pt ≠ []) :
    send_photo_to_telegram_channel oc ot cap (some pt) =
      [TgCall.sendPhoto (typeTagOf pt ++ render_html_with_basic_md
        (compress_with_gemini_if_needed oc cap SAFE_CAPTION_BODY))] := by
  have hle : (compress_with_gemini_if_needed oc cap SAFE_CAPTION_BODY).length ≤ CAPTION_LIMIT :=
    (compress_length_le _ _ _).trans (by norm_num [SAFE_CAPTION_BODY, CAPTION_LIMIT])
  simp only [send_photo_to_telegram_channel, if_pos hle]
  simp [hpt]

/-- C2 counterexample: for a 2000-character caption and the caption budget
850, the photo path performs exactly one delivery call (the photo) and no
follow-up text call at all, contradicting the claim's "at least one
follow-up text call carrying the remainder": the compressor hard-caps the
caption at 850 ≤ 1024, so the overflow tail is always empty. -/
theorem photo_followup_counterexample :
    ((send_photo_to_telegram_channel none none (List.replicate 2000 'a')
        (some ('T' :: []))).filter (fun c => TgCall.isTextCall c)).length = 0 ∧
      (send_photo_to_telegram_channel none none (List.replicate 2000 'a')
        (some ('T' :: []))).length = 1 := by
  rw [send_photo_calls_shape none none _ _ (by decide)]
  exact ⟨rfl, rfl⟩

/-- C2 amended: for every 2000-character caption, every oracle behaviour and
every non-empty category tag, the photo path produces exactly one
media-send call whose raw caption text (the compressed head) is at most
1024 characters, with the category tag present in that caption, and no
follow-up text call: the remainder dropped by compression is never sent. -/
theorem photo_caption_no_followup (oracleCap oracleTail : Option (List Char))
    (cap pt : List Char) (hcap : cap.length = 2000) (hpt : pt ≠ []) :
    send_photo_to_telegram_channel oracleCap oracleTail cap (some pt) =
      [TgCall.sendPhoto (typeTagOf pt ++ render_html_with_basic_md
        (compress_with_gemini_if_needed oracleCap cap SAFE_CAPTION_BODY))] ∧
      (compress_with_gemini_if_needed oracleCap cap SAFE_CAPTION_BODY).length ≤ CAPTION_LIMIT ∧
      (send_photo_to_telegram_channel oracleCap oracleTail cap (some pt)).filter
        (fun c => TgCall.isTextCall c) = [] := by
  have hs := send_photo_calls_shape oracleCap oracleTail cap pt hpt
  refine ⟨hs, (compress_length_le _ _ _).trans (by norm_num [SAFE_CAPTION_BODY, CAPTION_LIMIT]), ?_⟩
  rw [hs]
  rfl

theorem photo_caption_no_followup_witness :
    ((List.replicate 2000 'a').length = 2000 ∧ ('T' :: []) ≠ []) ∧
      (send_photo_to_telegram_channel none none (List.replicate 2000 'a') (some ('T' :: [])) =
        [TgCall.sendPhoto (typeTagOf ('T' :: []) ++ render_html_with_basic_md
          (compress_with_gemini_if_needed none (List.replicate 2000 'a') SAFE_CAPTION_BODY))] ∧
        (compress_with_gemini_if_needed none (List.replicate 2000 'a')
          SAFE_CAPTION_BODY).length ≤ CAPTION_LIMIT ∧
        (send_photo_to_telegram_channel none none (List.replicate 2000 'a')
          (some ('T' :: []))).filter (fun c => TgCall.isTextCall c) = []) :=
  ⟨⟨List.length_replicate .., by decide⟩,
    photo_caption_no_followup none none _ _ (List.length_replicate ..) (by decide)⟩

/-- C7: a message whose key is already in the loaded ledger set is skipped
before anything happens: no translation, no rendering, no delivery call,
and the posted set and results output are returned unchanged
(`exchange_info_ai_agent.py` lines 66-71, the `continue` before
`translate_text_gemini`). -/
theorem duplicate_skipped (translate : List Char → List Char)
    (oracle : Option (List Char)) (transport : Nat → Bool)
    (ch : List Char) (ct : Option (List Char)) (posted : List (List Char))
    (msg : Msg) (h : msg_key ch msg.id ∈ posted) :
    process_message translate oracle transport ch ct posted msg =
      { posted := posted, dispatched := [], translated := false, results := [] } := by
  simp only [process_message]
  rw [if_pos h]

theorem duplicate_skipped_witness :
    msg_key ('@' :: 'c' :: []) 1 ∈ [msg_key ('@' :: 'c' :: []) 1] ∧
      process_message (fun t => t) none (fun _ => false) ('@' :: 'c' :: []) none
        [msg_key ('@' :: 'c' :: []) 1] ⟨1, 'h' :: 'i' :: [], false, false⟩ =
      { posted := [msg_key ('@' :: 'c' :: []) 1], dispatched := [],
        translated := false, results := [] } :=
  ⟨by simp, duplicate_skipped _ _ _ _ _ _ _ (by simp)⟩

/-- C1 counterexample: with a transport that rejects every call, processing
a fresh text message performs one chunk dispatch that is rejected
(`DeliveryRejected`), yet the message key is still added to the posted
set: the send functions report the failure and continue, and `main()` adds
the key unconditionally after the call returns. -/
theorem rejected_chunk_still_marked :
    (process_message (fun t => t) none (fun _ => false) ('@' :: 'c' :: []) none []
        ⟨1, 'h' :: 'i' :: [], false, false⟩).dispatched =
      [(TgCall.sendMessage ('h' :: 'i' :: []), false)] ∧
      msg_key ('@' :: 'c' :: []) 1 ∈
        (process_message (fun t => t) none (fun _ => false) ('@' :: 'c' :: []) none []
          ⟨1, 'h' :: 'i' :: [], false, false⟩).posted := by
  decide

/-- C1 amended: a non-duplicate Item is marked delivered (its key added to
the in-memory posted set) whenever its dispatch call returns, regardless of
per-chunk transport outcomes: a non-success response is reported and
swallowed inside the send functions, so the Item is still marked and a
future run will not retry it. -/
theorem processed_item_always_marked (translate : List Char → List Char)
    (oracle : Option (List Char)) (transport : Nat → Bool)
    (ch : List Char) (ct : Option (List Char)) (posted : List (List Char))
    (msg : Msg) (h : msg_key ch msg.id ∉ posted) :
    (process_message translate oracle transport ch ct posted msg).posted =
      posted ++ [msg_key ch msg.id] := by
  simp only [process_message]
  rw [if_neg h]

theorem processed_item_always_marked_witness :
    msg_key ('@' :: 'c' :: []) 1 ∉ ([] : List (List Char)) ∧
      (process_message (fun t => t) none (fun _ => false) ('@' :: 'c' :: []) none []
        ⟨1, 'h' :: 'i' :: [], false, false⟩).posted =
      [] ++ [msg_key ('@' :: 'c' :: []) 1] :=
  ⟨by simp, processed_item_always_marked _ _ _ _ _ _ _ (by simp)⟩
